import Mathlib

/-!
Shallow embedding of the impact-simulation core of
src/order_book_analysis.cpp (Blockhouse order-book analysis).

C++ doubles are modelled as rationals (ℚ); C++ int as Int (no overflow is
relevant to the properties studied here, all sizes are tiny).  The
imperative level-walking loops of calculateTemporaryImpact become
structural recursion over the level list, and the per-snapshot / per-size
accumulation loops become List.filterMap, preserving iteration order.
-/

/-- One price level of the book, from struct OrderBookLevel
(price : double, size : int). -/
structure OrderBookLevel where
  price : ℚ
  size : Int
deriving DecidableEq

/-- OrderBookLevel.isValid: true iff price > 0 and size > 0. -/
def OrderBookLevel.isValid (l : OrderBookLevel) : Bool :=
  decide (0 < l.price) && decide (0 < l.size)

/-- struct OrderBookSnapshot: timestamp/date strings plus bid and ask
level lists (bids sorted high to low, asks low to high in the data). -/
structure OrderBookSnapshot where
  timestamp : String := ""
  date : String := ""
  bids : List OrderBookLevel
  asks : List OrderBookLevel
deriving DecidableEq

/-- OrderBookSnapshot.getMidPrice: (bids[0].price + asks[0].price) / 2
when both sides are non-empty and both best prices are positive,
otherwise 0.  (The C++ guard is
!bids.empty() && !asks.empty() && bids[0].price > 0 && asks[0].price > 0.) -/
def OrderBookSnapshot.getMidPrice (s : OrderBookSnapshot) : ℚ :=
  match s.bids, s.asks with
  | b :: _, a :: _ => if 0 < b.price ∧ 0 < a.price then (b.price + a.price) / 2 else 0
  | _, _ => 0

/-- OrderBookSnapshot.getTotalBidDepth: std::accumulate of the bid sizes
starting from 0 (a left fold, as in the C++). -/
def OrderBookSnapshot.getTotalBidDepth (s : OrderBookSnapshot) : Int :=
  s.bids.foldl (fun sum l => sum + l.size) 0

/-- OrderBookSnapshot.getTotalAskDepth: std::accumulate of the ask sizes
starting from 0. -/
def OrderBookSnapshot.getTotalAskDepth (s : OrderBookSnapshot) : Int :=
  s.asks.foldl (fun sum l => sum + l.size) 0

/-- struct ImpactResult: order size, average impact, impact in bps. -/
structure ImpactResult where
  order_size : Int
  avg_impact : ℚ
  impact_bps : ℚ
deriving DecidableEq

/-- The inner level-walking loop of calculateTemporaryImpact
(lines 329-346): given the remaining target quantity, walk the levels in
order; at each level break if `remaining <= 0 || level.price <= 0 ||
level.size <= 0`, otherwise take `min remaining level.size`, accumulate
`total_cost += take * level.price` and `total_shares += take`, and
continue with `remaining -= take`.  Returns (total_cost, total_shares). -/
def walkLevels (remaining : Int) : List OrderBookLevel → ℚ × Int
  | [] => (0, 0)
  | l :: ls =>
    if remaining ≤ 0 ∨ l.price ≤ 0 ∨ l.size ≤ 0 then (0, 0)
    else
      let take := min remaining l.size
      let rest := walkLevels (remaining - take) ls
      ((take : ℚ) * l.price + rest.1, take + rest.2)

/-- The list of (take, price) pairs the walk consumes, in walk order:
the same recursion as walkLevels, recording each level it takes from. -/
def consumedTakes (remaining : Int) : List OrderBookLevel → List (Int × ℚ)
  | [] => []
  | l :: ls =>
    if remaining ≤ 0 ∨ l.price ≤ 0 ∨ l.size ≤ 0 then []
    else (min remaining l.size, l.price) :: consumedTakes (remaining - min remaining l.size) ls

/-- The per-snapshot simulation step of calculateTemporaryImpact: buy
orders walk the ask levels, any other side walks the bid levels
(the C++ tests `side == "buy"` and treats everything else as the sell
branch).  Returns (total_cost, total_shares). -/
def simulate (snapshot : OrderBookSnapshot) (side : String) (order_size : Int) : ℚ × Int :=
  walkLevels order_size (if side == "buy" then snapshot.asks else snapshot.bids)

/-- The body of the per-snapshot loop of calculateTemporaryImpact for one
order size (lines 319-365): skip the snapshot (none) when its mid-price
is not positive; simulate the fill; when `total_shares > 0`, produce the
impact `(avg - mid)/mid` for buys, `(mid - avg)/mid` otherwise, where
`avg = total_cost / total_shares`; otherwise produce nothing. -/
def snapshotImpact (side : String) (order_size : Int) (snapshot : OrderBookSnapshot) :
    Option ℚ :=
  let mid_price := snapshot.getMidPrice
  if mid_price ≤ 0 then none
  else
    let r := simulate snapshot side order_size
    if 0 < r.2 then
      let avg_price := r.1 / (r.2 : ℚ)
      some (if side == "buy" then (avg_price - mid_price) / mid_price
            else (mid_price - avg_price) / mid_price)
    else none

/-- The per-snapshot accumulation loop of calculateTemporaryImpact for
one order size: the list of impacts pushed onto the accumulator, in
snapshot order. -/
def impactsFor (snapshots : List OrderBookSnapshot) (side : String) (order_size : Int) :
    List ℚ :=
  snapshots.filterMap (snapshotImpact side order_size)

/-- The order-size loop header of calculateTemporaryImpact (line 315):
`for (int order_size = 10; order_size <= max_shares; order_size += 10)`,
rendered as the list of loop-variable values, starting from a general
initial value. -/
def sizeLoop (order_size max_shares : Int) : List Int :=
  if order_size ≤ max_shares then
    order_size :: sizeLoop (order_size + 10) max_shares
  else []
termination_by (max_shares + 10 - order_size).toNat
decreasing_by
  simp_wf
  omega

/-- The per-order-size emission step of calculateTemporaryImpact
(lines 368-375): when the accumulator for this size is non-empty, emit
one ImpactResult carrying the arithmetic mean of the accumulated impacts
and the mean times 10000 (bps); when it is empty, emit nothing. -/
def sizeResult (snapshots : List OrderBookSnapshot) (side : String) (order_size : Int) :
    Option ImpactResult :=
  let impacts := impactsFor snapshots side order_size
  if impacts.isEmpty then none
  else
    let avg_impact := impacts.sum / (impacts.length : ℚ)
    some ⟨order_size, avg_impact, avg_impact * 10000⟩

/-- calculateTemporaryImpact (lines 305-379): for each order size 10, 20,
..., max_shares, gather the per-snapshot impacts and emit the per-size
sample when the accumulator is non-empty. -/
def calculateTemporaryImpact (snapshots : List OrderBookSnapshot) (side : String)
    (max_shares : Int) : List ImpactResult :=
  (sizeLoop 10 max_shares).filterMap (sizeResult snapshots side)

/-- The execution simulator exactly as the specification words it
(spec section 4.1): maintain `remaining = quantity`; stop as soon as
`remaining == 0`, or a level with `price <= 0 or size <= 0` is met, or
the levels run out; otherwise `take = min(remaining, level.size)`,
`cost += take * level.price`, `filled += take`, `remaining -= take`.
State (remaining, cost, filled) is threaded explicitly; the result is
(cost, filled). -/
def specConsume (remaining : Int) (cost : ℚ) (filled : Int) :
    List OrderBookLevel → ℚ × Int
  | [] => (cost, filled)
  | l :: ls =>
    if remaining = 0 then (cost, filled)
    else if l.price ≤ 0 ∨ l.size ≤ 0 then (cost, filled)
    else
      specConsume (remaining - min remaining l.size)
        (cost + (min remaining l.size : Int) * l.price)
        (filled + min remaining l.size) ls

/-- The per-row level construction of loadData (lines 227-256), with the
CSV tokens abstracted to already-parsed optional values: the code first
does bids.resize(10)/asks.resize(10) (ten default levels, price 0.0 and
size 0), then for each i in 0..9 overwrites the price or size field only
when the corresponding column exists and is non-empty.  An entry
(p?, s?) at index i carries the parsed bid (or ask) price/size tokens of
level i; none means the row has no columns for that level. -/
def applyLevelTokens (entries : List (Option ℚ × Option Int)) : List OrderBookLevel :=
  (List.range 10).map fun i =>
    match entries.get? i with
    | some (p?, s?) => ⟨p?.getD 0, s?.getD 0⟩
    | none => ⟨0, 0⟩

/-! ### Basic lemmas about the level walk -/

theorem walkLevels_filled_nonneg (ls : List OrderBookLevel) :
    ∀ r : Int, 0 ≤ (walkLevels r ls).2 := by
  induction ls with
  | nil => intro r; simp [walkLevels]
  | cons l ls ih =>
    intro r
    simp only [walkLevels]
    split
    · simp
    · rename_i h
      push_neg at h
      obtain ⟨hr, hp, hs⟩ := h
      have hmin : 0 < min r l.size := lt_min hr hs
      have := ih (r - min r l.size)
      simp only []
      omega

theorem walkLevels_eq_consumedTakes (ls : List OrderBookLevel) :
    ∀ r : Int,
      walkLevels r ls =
        (((consumedTakes r ls).map fun tp => (tp.1 : ℚ) * tp.2).sum,
         ((consumedTakes r ls).map fun tp => tp.1).sum) := by
  induction ls with
  | nil => intro r; simp [walkLevels, consumedTakes]
  | cons l ls ih =>
    intro r
    simp only [walkLevels, consumedTakes]
    split
    · simp
    · simp [ih (r - min r l.size)]

theorem consumedTakes_mem (ls : List OrderBookLevel) :
    ∀ r : Int, ∀ tp ∈ consumedTakes r ls,
      1 ≤ tp.1 ∧ ∃ l ∈ ls, tp.2 = l.price ∧ 0 < l.price := by
  induction ls with
  | nil => intro r tp htp; simp [consumedTakes] at htp
  | cons l ls ih =>
    intro r tp htp
    simp only [consumedTakes] at htp
    split at htp
    · simp at htp
    · rename_i h
      push_neg at h
      obtain ⟨hr, hp, hs⟩ := h
      rcases List.mem_cons.mp htp with heq | hmem
      · subst heq
        refine ⟨by simp; omega, l, List.mem_cons_self _ _, rfl, hp⟩
      · obtain ⟨h1, l', hl', hpr⟩ := ih (r - min r l.size) tp hmem
        exact ⟨h1, l', List.mem_cons_of_mem _ hl', hpr⟩

theorem walkLevels_filled_le (ls : List OrderBookLevel) :
    ∀ r : Int, 0 ≤ r → (walkLevels r ls).2 ≤ r := by
  induction ls with
  | nil => intro r hr; simpa [walkLevels] using hr
  | cons l ls ih =>
    intro r hr
    simp only [walkLevels]
    split
    · simpa using hr
    · rename_i h
      push_neg at h
      have := ih (r - min r l.size) (by omega)
      simp only []
      omega

theorem walkLevels_filled_mono (ls : List OrderBookLevel) :
    ∀ r r' : Int, r ≤ r' → (walkLevels r ls).2 ≤ (walkLevels r' ls).2 := by
  induction ls with
  | nil => intro r r' _; simp [walkLevels]
  | cons l ls ih =>
    intro r r' hrr
    by_cases hc : r ≤ 0 ∨ l.price ≤ 0 ∨ l.size ≤ 0
    · have h1 : walkLevels r (l :: ls) = (0, 0) := by
        simp only [walkLevels]
        rw [if_pos hc]
      rw [h1]
      exact walkLevels_filled_nonneg _ _
    · push_neg at hc
      obtain ⟨hr, hp, hs⟩ := hc
      have e1 : walkLevels r (l :: ls) =
          (((min r l.size : Int) : ℚ) * l.price + (walkLevels (r - min r l.size) ls).1,
           min r l.size + (walkLevels (r - min r l.size) ls).2) := by
        simp only [walkLevels]
        rw [if_neg (by push_neg; exact ⟨hr, hp, hs⟩)]
      have e2 : walkLevels r' (l :: ls) =
          (((min r' l.size : Int) : ℚ) * l.price + (walkLevels (r' - min r' l.size) ls).1,
           min r' l.size + (walkLevels (r' - min r' l.size) ls).2) := by
        simp only [walkLevels]
        rw [if_neg (by push_neg; exact ⟨by omega, hp, hs⟩)]
      rw [e1, e2]
      dsimp only
      by_cases hls : l.size ≤ r
      · have hmin : min r l.size = l.size := min_eq_right hls
        have hmin' : min r' l.size = l.size := min_eq_right (by omega)
        have := ih (r - min r l.size) (r' - min r' l.size) (by omega)
        omega
      · push_neg at hls
        have hmin : min r l.size = r := min_eq_left (by omega)
        have hz : (walkLevels (0 : Int) ls).2 = 0 := by
          cases ls with
          | nil => simp [walkLevels]
          | cons x xs => simp [walkLevels]
        have h0 : (walkLevels (r - min r l.size) ls).2 = 0 := by
          rw [hmin, sub_self]
          exact hz
        have hnn := walkLevels_filled_nonneg ls (r' - min r' l.size)
        have hm2 : min r l.size ≤ min r' l.size := by omega
        omega

theorem walkLevels_filled_le_sizes (ls : List OrderBookLevel) :
    ∀ r : Int, (∀ l ∈ ls, 0 ≤ l.size) →
      (walkLevels r ls).2 ≤ (ls.map fun l => l.size).sum := by
  induction ls with
  | nil => intro r _; simp [walkLevels]
  | cons l ls ih =>
    intro r hsz
    simp only [walkLevels]
    split
    · rename_i h
      have : (0 : Int) ≤ (ls.map fun l => l.size).sum := by
        apply List.sum_nonneg
        intro x hx
        obtain ⟨y, hy, hxy⟩ := List.mem_map.mp hx
        exact hxy ▸ hsz y (List.mem_cons_of_mem _ hy)
      have hl0 : (0 : Int) ≤ l.size := hsz l (List.mem_cons_self _ _)
      simp only [List.map_cons, List.sum_cons]
      omega
    · rename_i h
      push_neg at h
      have := ih (r - min r l.size) (fun x hx => hsz x (List.mem_cons_of_mem _ hx))
      simp only [List.map_cons, List.sum_cons]
      omega

theorem foldl_add_sizes (ls : List OrderBookLevel) :
    ∀ n : Int, ls.foldl (fun sum l => sum + l.size) n = n + (ls.map fun l => l.size).sum := by
  induction ls with
  | nil => intro n; simp
  | cons l ls ih =>
    intro n
    simp only [List.foldl_cons, List.map_cons, List.sum_cons]
    rw [ih]
    ring

/-! ### Lemmas about the order-size loop -/

theorem sizeLoop_ge (cur max_shares : Int) : ∀ x ∈ sizeLoop cur max_shares, cur ≤ x := by
  induction cur, max_shares using sizeLoop.induct with
  | case1 cur max_shares h ih =>
    intro x hx
    rw [sizeLoop, if_pos h] at hx
    rcases List.mem_cons.mp hx with rfl | hmem
    · exact le_rfl
    · have := ih x hmem
      omega
  | case2 cur max_shares h =>
    intro x hx
    rw [sizeLoop, if_neg h] at hx
    simp at hx

theorem sizeLoop_pairwise (cur max_shares : Int) :
    (sizeLoop cur max_shares).Pairwise (· < ·) := by
  induction cur, max_shares using sizeLoop.induct with
  | case1 cur max_shares h ih =>
    rw [sizeLoop, if_pos h]
    refine List.pairwise_cons.mpr ⟨?_, ih⟩
    intro x hx
    have := sizeLoop_ge (cur + 10) max_shares x hx
    omega
  | case2 cur max_shares h =>
    rw [sizeLoop, if_neg h]
    exact List.Pairwise.nil

theorem sizeLoop_mem (cur max_shares x : Int) :
    x ∈ sizeLoop cur max_shares ↔ cur ≤ x ∧ x ≤ max_shares ∧ (x - cur) % 10 = 0 := by
  induction cur, max_shares using sizeLoop.induct with
  | case1 cur max_shares h ih =>
    rw [sizeLoop, if_pos h]
    constructor
    · intro hx
      rcases List.mem_cons.mp hx with rfl | hmem
      · exact ⟨le_rfl, h, by omega⟩
      · have := ih.mp hmem
        refine ⟨by omega, this.2.1, ?_⟩
        omega
    · rintro ⟨h1, h2, h3⟩
      by_cases hcx : x = cur
      · exact hcx ▸ List.mem_cons_self _ _
      · refine List.mem_cons_of_mem _ (ih.mpr ⟨?_, h2, ?_⟩) <;> omega
  | case2 cur max_shares h =>
    rw [sizeLoop, if_neg h]
    simp only [List.not_mem_nil, false_iff]
    push_neg
    intro h1 h2
    omega

/-! ### The code walk agrees with the specification's consumption loop -/

theorem specConsume_eq_walkLevels (ls : List OrderBookLevel) :
    ∀ (r : Int) (cost : ℚ) (filled : Int), 0 ≤ r →
      specConsume r cost filled ls =
        (cost + (walkLevels r ls).1, filled + (walkLevels r ls).2) := by
  induction ls with
  | nil => intro r cost filled _; simp [specConsume, walkLevels]
  | cons l ls ih =>
    intro r cost filled hr
    by_cases h0 : r = 0
    · subst h0
      simp [specConsume, walkLevels]
    · by_cases hinv : l.price ≤ 0 ∨ l.size ≤ 0
      · have e1 : specConsume r cost filled (l :: ls) = (cost, filled) := by
          simp only [specConsume]
          rw [if_neg h0, if_pos hinv]
        have e2 : walkLevels r (l :: ls) = (0, 0) := by
          simp only [walkLevels]
          rw [if_pos (Or.inr hinv)]
        rw [e1, e2]
        simp
      · push_neg at hinv
        have hrpos : 0 < r := by omega
        have e1 : specConsume r cost filled (l :: ls) =
            specConsume (r - min r l.size) (cost + (min r l.size : Int) * l.price)
              (filled + min r l.size) ls := by
          simp only [specConsume]
          rw [if_neg h0, if_neg (by push_neg; exact hinv)]
        have e2 : walkLevels r (l :: ls) =
            (((min r l.size : Int) : ℚ) * l.price + (walkLevels (r - min r l.size) ls).1,
             min r l.size + (walkLevels (r - min r l.size) ls).2) := by
          simp only [walkLevels]
          rw [if_neg (by push_neg; exact ⟨hrpos, hinv⟩)]
        rw [e1, e2, ih (r - min r l.size) _ _ (by omega)]
        dsimp only
        simp only [Prod.mk.injEq]
        constructor
        · push_cast
          ring
        · omega

/-! ### Weighted-sum bounds -/

theorem mul_filled_le_cost (l : List (Int × ℚ)) (lo : ℚ)
    (h : ∀ tp ∈ l, 0 ≤ tp.1 ∧ lo ≤ tp.2) :
    lo * (((l.map fun tp => tp.1).sum : Int) : ℚ) ≤
      (l.map fun tp => (tp.1 : ℚ) * tp.2).sum := by
  induction l with
  | nil => simp
  | cons tp l ih =>
    simp only [List.map_cons, List.sum_cons]
    obtain ⟨h1, h2⟩ := h tp (List.mem_cons_self _ _)
    have ih' := ih fun x hx => h x (List.mem_cons_of_mem _ hx)
    have hterm : lo * (tp.1 : ℚ) ≤ (tp.1 : ℚ) * tp.2 := by
      rw [mul_comm]
      exact mul_le_mul_of_nonneg_left h2 (by exact_mod_cast h1)
    push_cast
    push_cast at ih'
    nlinarith [hterm, ih']

theorem cost_le_mul_filled (l : List (Int × ℚ)) (hi : ℚ)
    (h : ∀ tp ∈ l, 0 ≤ tp.1 ∧ tp.2 ≤ hi) :
    (l.map fun tp => (tp.1 : ℚ) * tp.2).sum ≤
      hi * (((l.map fun tp => tp.1).sum : Int) : ℚ) := by
  induction l with
  | nil => simp
  | cons tp l ih =>
    simp only [List.map_cons, List.sum_cons]
    obtain ⟨h1, h2⟩ := h tp (List.mem_cons_self _ _)
    have ih' := ih fun x hx => h x (List.mem_cons_of_mem _ hx)
    have hterm : (tp.1 : ℚ) * tp.2 ≤ hi * (tp.1 : ℚ) := by
      rw [mul_comm hi]
      exact mul_le_mul_of_nonneg_left h2 (by exact_mod_cast h1)
    push_cast
    push_cast at ih'
    nlinarith [hterm, ih']

theorem exists_list_min (l : List ℚ) (h : l ≠ []) : ∃ m ∈ l, ∀ p ∈ l, m ≤ p := by
  induction l with
  | nil => cases h rfl
  | cons a l ih =>
    cases l with
    | nil =>
      refine ⟨a, List.mem_cons_self _ _, ?_⟩
      intro p hp
      rcases List.mem_cons.mp hp with rfl | hmem
      · exact le_rfl
      · simp at hmem
    | cons b t =>
      obtain ⟨m, hm, hmin⟩ := ih (by simp)
      by_cases hab : a ≤ m
      · refine ⟨a, List.mem_cons_self _ _, ?_⟩
        intro p hp
        rcases List.mem_cons.mp hp with rfl | hmem
        · exact le_rfl
        · exact le_trans hab (hmin p hmem)
      · refine ⟨m, List.mem_cons_of_mem _ hm, ?_⟩
        intro p hp
        rcases List.mem_cons.mp hp with rfl | hmem
        · exact le_of_not_le hab
        · exact hmin p hmem

theorem exists_list_max (l : List ℚ) (h : l ≠ []) : ∃ m ∈ l, ∀ p ∈ l, p ≤ m := by
  induction l with
  | nil => cases h rfl
  | cons a l ih =>
    cases l with
    | nil =>
      refine ⟨a, List.mem_cons_self _ _, ?_⟩
      intro p hp
      rcases List.mem_cons.mp hp with rfl | hmem
      · exact le_rfl
      · simp at hmem
    | cons b t =>
      obtain ⟨m, hm, hmax⟩ := ih (by simp)
      by_cases hab : m ≤ a
      · refine ⟨a, List.mem_cons_self _ _, ?_⟩
        intro p hp
        rcases List.mem_cons.mp hp with rfl | hmem
        · exact le_rfl
        · exact le_trans (hmax p hmem) hab
      · refine ⟨m, List.mem_cons_of_mem _ hm, ?_⟩
        intro p hp
        rcases List.mem_cons.mp hp with rfl | hmem
        · exact le_of_not_le hab
        · exact hmax p hmem

/-! ### Lemmas about the per-snapshot step -/

theorem snapshotImpact_none_of_mid (s : OrderBookSnapshot) (side : String) (sz : Int)
    (h : s.getMidPrice ≤ 0) : snapshotImpact side sz s = none := by
  simp only [snapshotImpact]
  rw [if_pos h]

theorem snapshotImpact_none_of_no_fill (s : OrderBookSnapshot) (side : String) (sz : Int)
    (h : (simulate s side sz).2 ≤ 0) : snapshotImpact side sz s = none := by
  by_cases hm : s.getMidPrice ≤ 0
  · simp only [snapshotImpact]
    rw [if_pos hm]
  · simp only [snapshotImpact]
    rw [if_neg hm, if_neg (not_lt.mpr h)]

theorem snapshotImpact_some (s : OrderBookSnapshot) (side : String) (sz : Int)
    (hm : 0 < s.getMidPrice) (hf : 0 < (simulate s side sz).2) :
    snapshotImpact side sz s =
      some (if side == "buy"
            then ((simulate s side sz).1 / ((simulate s side sz).2 : ℚ) - s.getMidPrice) /
                  s.getMidPrice
            else (s.getMidPrice - (simulate s side sz).1 / ((simulate s side sz).2 : ℚ)) /
                  s.getMidPrice) := by
  simp only [snapshotImpact]
  rw [if_neg (not_le.mpr hm), if_pos hf]

theorem impactsFor_cons (s : OrderBookSnapshot) (rest : List OrderBookSnapshot)
    (side : String) (sz : Int) :
    impactsFor (s :: rest) side sz =
      (snapshotImpact side sz s).toList ++ impactsFor rest side sz := by
  simp only [impactsFor, List.filterMap_cons]
  cases snapshotImpact side sz s <;> simp

/-! ### Claim C1 -/

/-- C1: for every snapshot and positive integer quantity, the execution
simulator consumes ask levels for a buy order and bid levels for a sell
order, and agrees with the specification's consumption loop (walk the
levels best-first with take = min(remaining, size), accumulating cost and
filled and decrementing remaining, stopping at remaining == 0, at an
invalid level, or at exhaustion); whenever filled > 0 the returned VWAP
equals cost / filled. -/
theorem C1_simulator_refines_spec (snapshot : OrderBookSnapshot) (q : Int) (hq : 0 < q) :
    simulate snapshot "buy" q = specConsume q 0 0 snapshot.asks ∧
    simulate snapshot "sell" q = specConsume q 0 0 snapshot.bids ∧
    (0 < (specConsume q 0 0 snapshot.asks).2 →
      (simulate snapshot "buy" q).1 / ((simulate snapshot "buy" q).2 : ℚ) =
        (specConsume q 0 0 snapshot.asks).1 / ((specConsume q 0 0 snapshot.asks).2 : ℚ)) ∧
    (0 < (specConsume q 0 0 snapshot.bids).2 →
      (simulate snapshot "sell" q).1 / ((simulate snapshot "sell" q).2 : ℚ) =
        (specConsume q 0 0 snapshot.bids).1 / ((specConsume q 0 0 snapshot.bids).2 : ℚ)) := by
  have ha : specConsume q 0 0 snapshot.asks = walkLevels q snapshot.asks := by
    rw [specConsume_eq_walkLevels snapshot.asks q 0 0 (le_of_lt hq)]
    simp
  have hb : specConsume q 0 0 snapshot.bids = walkLevels q snapshot.bids := by
    rw [specConsume_eq_walkLevels snapshot.bids q 0 0 (le_of_lt hq)]
    simp
  have sa : simulate snapshot "buy" q = walkLevels q snapshot.asks := by
    simp [simulate]
  have sb : simulate snapshot "sell" q = walkLevels q snapshot.bids := by
    simp [simulate]
  refine ⟨by rw [sa, ha], by rw [sb, hb], ?_, ?_⟩
  · intro _
    rw [sa, ha]
  · intro _
    rw [sb, hb]

/-- C1 witness: the hypotheses of C1_simulator_refines_spec hold at a
concrete snapshot and quantity. -/
theorem C1_simulator_refines_spec_witness :
    (0 : Int) < 8 ∧
      simulate ⟨"", "", [⟨99, 5⟩], [⟨100, 5⟩]⟩ "buy" 8 = specConsume 8 0 0 [⟨100, 5⟩] :=
  ⟨by decide, (C1_simulator_refines_spec ⟨"", "", [⟨99, 5⟩], [⟨100, 5⟩]⟩ 8 (by decide)).1⟩

/-! ### Claim C2 -/

/-- C2 counterexample: the snapshot whose best bid level is (price 100,
size 0) has an invalid best bid (isValid = false, size is not positive),
yet getMidPrice returns 201/2, not 0, and the snapshot is not excluded
from curve computations (it contributes the impact 1/201 for a buy of
10). -/
theorem C2_midprice_counterexample :
    OrderBookLevel.isValid ⟨100, 0⟩ = false ∧
    OrderBookSnapshot.getMidPrice ⟨"", "", [⟨100, 0⟩], [⟨101, 5⟩]⟩ = 201 / 2 ∧
    impactsFor [⟨"", "", [⟨100, 0⟩], [⟨101, 5⟩]⟩] "buy" 10 = [1 / 201] := by
  refine ⟨by decide, ?_, ?_⟩
  · norm_num [OrderBookSnapshot.getMidPrice]
  · have h1 : snapshotImpact "buy" 10 ⟨"", "", [⟨100, 0⟩], [⟨101, 5⟩]⟩ = some (1 / 201) := by
      norm_num [snapshotImpact, simulate, walkLevels, OrderBookSnapshot.getMidPrice]
    simp [impactsFor, List.filterMap_cons, h1]

/-- C2 (amended): the mid-price accessor returns
(best_bid.price + best_ask.price) / 2 exactly when both sides are
non-empty and both best prices are positive — the best level sizes are
not checked — and returns 0 otherwise; every snapshot whose mid-price is
not positive contributes nothing to any curve computation. -/
theorem C2_midprice_amended (s : OrderBookSnapshot) :
    (∀ b bs a as', s.bids = b :: bs → s.asks = a :: as' →
      0 < b.price → 0 < a.price → s.getMidPrice = (b.price + a.price) / 2) ∧
    ((∀ b bs a as', s.bids = b :: bs → s.asks = a :: as' →
      b.price ≤ 0 ∨ a.price ≤ 0) → s.getMidPrice = 0) ∧
    (s.getMidPrice ≤ 0 → ∀ pre post side sz,
      impactsFor (pre ++ s :: post) side sz = impactsFor (pre ++ post) side sz) := by
  refine ⟨?_, ?_, ?_⟩
  · rintro b bs a as' h1 h2 hb ha
    obtain ⟨ts, dt, bids, asks⟩ := s
    simp only at h1 h2
    subst h1
    subst h2
    simp [OrderBookSnapshot.getMidPrice, hb, ha]
  · intro hcond
    obtain ⟨ts, dt, bids, asks⟩ := s
    cases bids with
    | nil => simp [OrderBookSnapshot.getMidPrice]
    | cons b bs =>
      cases asks with
      | nil => simp [OrderBookSnapshot.getMidPrice]
      | cons a as' =>
        have hba := hcond b bs a as' rfl rfl
        simp only [OrderBookSnapshot.getMidPrice]
        rw [if_neg]
        rintro ⟨h1', h2'⟩
        rcases hba with h | h <;> linarith
  · intro hmid pre post side sz
    induction pre with
    | nil =>
      rw [List.nil_append, List.nil_append, impactsFor_cons,
        snapshotImpact_none_of_mid s side sz hmid]
      simp
    | cons p pre ih =>
      rw [List.cons_append, List.cons_append, impactsFor_cons, impactsFor_cons, ih]

/-- C2 witness: the amended mid-price characterization evaluated at a
concrete snapshot with valid best levels. -/
theorem C2_midprice_amended_witness :
    OrderBookSnapshot.getMidPrice ⟨"", "", [⟨100, 2⟩], [⟨102, 3⟩]⟩ = (100 + 102) / 2 :=
  (C2_midprice_amended ⟨"", "", [⟨100, 2⟩], [⟨102, 3⟩]⟩).1 ⟨100, 2⟩ [] ⟨102, 3⟩ []
    rfl rfl (by decide) (by decide)

theorem sizeLoop_eq_nil (cur max_shares : Int) (h : max_shares < cur) :
    sizeLoop cur max_shares = [] := by
  rw [sizeLoop, if_neg (not_le.mpr h)]

/-! ### Claim C10 -/

/-- C10: calling calculateTemporaryImpact with any side string other than
exactly "buy" returns exactly the same result as calling it with side
"sell": the side test is `side == "buy"`, and every other string takes
the bid-consuming, sell-impact branch; no error is raised. -/
theorem C10_non_buy_side_is_sell (snapshots : List OrderBookSnapshot) (max_shares : Int)
    (side : String) (h : side ≠ "buy") :
    calculateTemporaryImpact snapshots side max_shares =
      calculateTemporaryImpact snapshots "sell" max_shares := by
  have hb : (side == "buy") = false := beq_eq_false_iff_ne.mpr h
  have hs : (("sell" : String) == "buy") = false := by decide
  have himp : ∀ sz, snapshotImpact side sz = snapshotImpact "sell" sz := by
    intro sz
    funext s
    simp only [snapshotImpact, simulate, hb, hs]
  have himps : ∀ sz, impactsFor snapshots side sz = impactsFor snapshots "sell" sz := by
    intro sz
    simp only [impactsFor, himp]
  have hres : sizeResult snapshots side = sizeResult snapshots "sell" := by
    funext sz
    simp only [sizeResult, himps]
  simp only [calculateTemporaryImpact, hres]

/-- C10 witness: side "BUY" (wrong case) produces the sell-side curve at
a concrete input. -/
theorem C10_non_buy_side_is_sell_witness :
    calculateTemporaryImpact [⟨"", "", [⟨99, 5⟩], [⟨100, 5⟩]⟩] "BUY" 10 =
      calculateTemporaryImpact [⟨"", "", [⟨99, 5⟩], [⟨100, 5⟩]⟩] "sell" 10 :=
  C10_non_buy_side_is_sell [⟨"", "", [⟨99, 5⟩], [⟨100, 5⟩]⟩] 10 "BUY" (by decide)

/-! ### Claim C8 -/

/-- C8: a call whose max_shares lies below the first order size (here
-5 < 10, covering the claim's negative-size / min > max precondition
violations) does not fail loudly: the order-size loop runs zero times and
the call silently returns the empty result, exactly as for a benign
input. -/
theorem C8_invalid_max_shares_silent :
    calculateTemporaryImpact [⟨"", "", [⟨99, 5⟩], [⟨100, 5⟩]⟩] "buy" (-5) = [] := by
  simp [calculateTemporaryImpact, sizeLoop_eq_nil 10 (-5) (by norm_num)]

/-! ### Claim C9 -/

/-- C9 counterexample: a data row carrying only one bid level and a data
row carrying an explicit tenth level with price 0 and size 0 construct
identical level sequences, and even the one-level row yields 10 stored
levels — levels beyond the available depth are zero-filled placeholder
entries, not absent, so the two rows are indistinguishable. -/
theorem C9_absent_levels_counterexample :
    applyLevelTokens [(some 100, some 5)] =
      applyLevelTokens [(some 100, some 5), (some 0, some 0), (some 0, some 0),
        (some 0, some 0), (some 0, some 0), (some 0, some 0), (some 0, some 0),
        (some 0, some 0), (some 0, some 0), (some 0, some 0)] ∧
    (applyLevelTokens [(some 100, some 5)]).length = 10 := by
  exact ⟨rfl, rfl⟩

/-- C9 (amended): every constructed side holds exactly 10 levels;
positions at or beyond the supplied depth hold the zero-filled
placeholder level (price 0, size 0), so a missing level is not
distinguishable from a level explicitly priced at 0 with size 0. -/
theorem C9_levels_amended (entries : List (Option ℚ × Option Int)) :
    (applyLevelTokens entries).length = 10 ∧
    (∀ i : Nat, i < 10 → entries.length ≤ i →
      (applyLevelTokens entries).get? i = some ⟨0, 0⟩) := by
  constructor
  · simp [applyLevelTokens]
  · intro i hi hlen
    have hget : entries[i]? = none := List.getElem?_eq_none hlen
    rw [applyLevelTokens, List.get?_eq_getElem?, List.getElem?_map, List.getElem?_range hi]
    simp [List.get?_eq_getElem?, hget]

/-- C9 witness: the amended statement evaluated on the one-level row. -/
theorem C9_levels_amended_witness :
    (applyLevelTokens [(some 100, some 5)]).length = 10 ∧
      (applyLevelTokens [(some 100, some 5)]).get? 5 = some ⟨0, 0⟩ :=
  ⟨(C9_levels_amended [(some 100, some 5)]).1,
   (C9_levels_amended [(some 100, some 5)]).2 5 (by decide) (by decide)⟩

/-! ### Claim C5 -/

/-- C5 counterexample: with a bid ladder [(100, 5), (100, -4)] (the C++
int size field is not validated, so a negative size can be loaded), a
sell of 5 fills 5 shares from the first level, while getTotalBidDepth
sums the raw sizes to 1; so filled > min(quantity, total depth). -/
theorem C5_fill_bound_counterexample :
    (simulate ⟨"", "", [⟨100, 5⟩, ⟨100, -4⟩], [⟨101, 5⟩]⟩ "sell" 5).2 = 5 ∧
    OrderBookSnapshot.getTotalBidDepth ⟨"", "", [⟨100, 5⟩, ⟨100, -4⟩], [⟨101, 5⟩]⟩ = 1 ∧
    ¬((simulate ⟨"", "", [⟨100, 5⟩, ⟨100, -4⟩], [⟨101, 5⟩]⟩ "sell" 5).2 ≤
        min 5 (OrderBookSnapshot.getTotalBidDepth
          ⟨"", "", [⟨100, 5⟩, ⟨100, -4⟩], [⟨101, 5⟩]⟩)) := by
  refine ⟨by decide, by decide, by decide⟩

/-- C5 (amended): for fixed snapshot and side, the filled quantity is
non-decreasing in the requested quantity, unconditionally — also on
books with negative-size levels; and, provided the quantity is
nonnegative and every level size on the consumed side is nonnegative,
filled(q) ≤ min(q, total depth on that side). -/
theorem C5_fill_monotone_and_bounded (snapshot : OrderBookSnapshot) (side : String)
    (q q' : Int) (hqq : q ≤ q') :
    (simulate snapshot side q).2 ≤ (simulate snapshot side q').2 ∧
    (0 ≤ q →
      (∀ l ∈ (if side == "buy" then snapshot.asks else snapshot.bids), 0 ≤ l.size) →
      (simulate snapshot side q).2 ≤
        min q (if side == "buy" then snapshot.getTotalAskDepth
               else snapshot.getTotalBidDepth)) := by
  constructor
  · simp only [simulate]
    exact walkLevels_filled_mono _ q q' hqq
  · intro hq hsz
    by_cases hc : (side == "buy") = true
    · rw [if_pos hc] at hsz
      rw [if_pos hc]
      simp only [simulate]
      rw [if_pos hc]
      refine le_min (walkLevels_filled_le _ q hq) ?_
      have hb := walkLevels_filled_le_sizes snapshot.asks q hsz
      rw [OrderBookSnapshot.getTotalAskDepth, foldl_add_sizes]
      simpa using hb
    · rw [if_neg hc] at hsz
      rw [if_neg hc]
      simp only [simulate]
      rw [if_neg hc]
      refine le_min (walkLevels_filled_le _ q hq) ?_
      have hb := walkLevels_filled_le_sizes snapshot.bids q hsz
      rw [OrderBookSnapshot.getTotalBidDepth, foldl_add_sizes]
      simpa using hb

/-- C5 witness: monotonicity evaluated on the negative-size
counterexample book itself, and the depth bound evaluated at a concrete
snapshot with nonnegative sizes. -/
theorem C5_fill_monotone_and_bounded_witness :
    (simulate ⟨"", "", [⟨100, 5⟩, ⟨100, -4⟩], [⟨101, 5⟩]⟩ "sell" 3).2 ≤
        (simulate ⟨"", "", [⟨100, 5⟩, ⟨100, -4⟩], [⟨101, 5⟩]⟩ "sell" 7).2 ∧
      (simulate ⟨"", "", [⟨99, 5⟩], [⟨100, 5⟩, ⟨101, 5⟩]⟩ "buy" 3).2 ≤
        min 3 (OrderBookSnapshot.getTotalAskDepth ⟨"", "", [⟨99, 5⟩], [⟨100, 5⟩, ⟨101, 5⟩]⟩) :=
  ⟨(C5_fill_monotone_and_bounded ⟨"", "", [⟨100, 5⟩, ⟨100, -4⟩], [⟨101, 5⟩]⟩ "sell" 3 7
      (by decide)).1,
   (C5_fill_monotone_and_bounded ⟨"", "", [⟨99, 5⟩], [⟨100, 5⟩, ⟨101, 5⟩]⟩ "buy" 3 7
      (by decide)).2 (by decide) (by decide)⟩

/-! ### Claim C6 -/

/-- The (take, price) pairs that the per-snapshot simulation of
calculateTemporaryImpact consumes: the walk of `simulate` recorded level
by level (buy orders consume asks, all other sides consume bids). -/
def consumedLevels (snapshot : OrderBookSnapshot) (side : String) (order_size : Int) :
    List (Int × ℚ) :=
  consumedTakes order_size (if side == "buy" then snapshot.asks else snapshot.bids)

theorem simulate_eq_consumedLevels (snapshot : OrderBookSnapshot) (side : String) (q : Int) :
    simulate snapshot side q =
      (((consumedLevels snapshot side q).map fun tp => (tp.1 : ℚ) * tp.2).sum,
       ((consumedLevels snapshot side q).map fun tp => tp.1).sum) := by
  rw [simulate, consumedLevels]
  exact walkLevels_eq_consumedTakes _ q

/-- C6: whenever the simulator fills a positive number of shares, the
returned VWAP (total_cost / total_shares) lies within the closed
interval from the lowest to the highest price among the levels actually
consumed; moreover total_cost and total_shares are exactly the sums of
take*price and take over the consumed levels. -/
theorem C6_vwap_within_consumed_range (snapshot : OrderBookSnapshot) (side : String)
    (q : Int) (hf : 0 < (simulate snapshot side q).2) :
    (simulate snapshot side q).1 =
      ((consumedLevels snapshot side q).map fun tp => (tp.1 : ℚ) * tp.2).sum ∧
    (simulate snapshot side q).2 =
      ((consumedLevels snapshot side q).map fun tp => tp.1).sum ∧
    ∃ lo hi, lo ∈ (consumedLevels snapshot side q).map (fun tp => tp.2) ∧
      hi ∈ (consumedLevels snapshot side q).map (fun tp => tp.2) ∧
      (∀ p ∈ (consumedLevels snapshot side q).map (fun tp => tp.2), lo ≤ p ∧ p ≤ hi) ∧
      lo ≤ (simulate snapshot side q).1 / ((simulate snapshot side q).2 : ℚ) ∧
      (simulate snapshot side q).1 / ((simulate snapshot side q).2 : ℚ) ≤ hi := by
  have hsim := simulate_eq_consumedLevels snapshot side q
  refine ⟨by rw [hsim], by rw [hsim], ?_⟩
  have hne : consumedLevels snapshot side q ≠ [] := by
    intro hnil
    rw [hsim, hnil] at hf
    simp at hf
  have hps : (consumedLevels snapshot side q).map (fun tp => tp.2) ≠ [] := by
    simpa using hne
  obtain ⟨lo, hlo_mem, hlo⟩ := exists_list_min _ hps
  obtain ⟨hi, hhi_mem, hhi⟩ := exists_list_max _ hps
  have htake : ∀ tp ∈ consumedLevels snapshot side q, 1 ≤ tp.1 := by
    intro tp htp
    exact (consumedTakes_mem _ q tp htp).1
  have hfQ : (0 : ℚ) < ((simulate snapshot side q).2 : ℚ) := by exact_mod_cast hf
  refine ⟨lo, hi, hlo_mem, hhi_mem, fun p hp => ⟨hlo p hp, hhi p hp⟩, ?_, ?_⟩
  · rw [le_div_iff₀ hfQ]
    have hlow := mul_filled_le_cost (consumedLevels snapshot side q) lo ?_
    · calc lo * ((simulate snapshot side q).2 : ℚ)
          = lo * ((((consumedLevels snapshot side q).map fun tp => tp.1).sum : Int) : ℚ) := by
            rw [hsim]
        _ ≤ ((consumedLevels snapshot side q).map fun tp => (tp.1 : ℚ) * tp.2).sum := hlow
        _ = (simulate snapshot side q).1 := by rw [hsim]
    · intro tp htp
      exact ⟨le_trans zero_le_one (htake tp htp),
        hlo tp.2 (List.mem_map_of_mem _ htp)⟩
  · rw [div_le_iff₀ hfQ]
    have hhigh := cost_le_mul_filled (consumedLevels snapshot side q) hi ?_
    · calc (simulate snapshot side q).1
          = ((consumedLevels snapshot side q).map fun tp => (tp.1 : ℚ) * tp.2).sum := by
            rw [hsim]
        _ ≤ hi * ((((consumedLevels snapshot side q).map fun tp => tp.1).sum : Int) : ℚ) :=
            hhigh
        _ = hi * ((simulate snapshot side q).2 : ℚ) := by rw [hsim]
    · intro tp htp
      exact ⟨le_trans zero_le_one (htake tp htp),
        hhi tp.2 (List.mem_map_of_mem _ htp)⟩

/-- C6 witness: the cost decomposition of the theorem evaluated at a
concrete snapshot and quantity with a positive fill. -/
theorem C6_vwap_within_consumed_range_witness :
    (simulate ⟨"", "", [⟨99, 5⟩], [⟨100, 5⟩, ⟨101, 5⟩]⟩ "buy" 8).1 =
      ((consumedLevels ⟨"", "", [⟨99, 5⟩], [⟨100, 5⟩, ⟨101, 5⟩]⟩ "buy" 8).map
        fun tp => (tp.1 : ℚ) * tp.2).sum :=
  (C6_vwap_within_consumed_range ⟨"", "", [⟨99, 5⟩], [⟨100, 5⟩, ⟨101, 5⟩]⟩ "buy" 8
    (by decide)).1

/-! ### Claim C4 -/

theorem getMidPrice_pos_elim (s : OrderBookSnapshot) (bq aq : OrderBookLevel)
    (bs as' : List OrderBookLevel) (hb : s.bids = bq :: bs) (ha : s.asks = aq :: as')
    (hmid : 0 < s.getMidPrice) :
    s.getMidPrice = (bq.price + aq.price) / 2 ∧ 0 < bq.price ∧ 0 < aq.price := by
  obtain ⟨ts, dt, bids, asks⟩ := s
  simp only at hb ha
  subst hb
  subst ha
  simp only [OrderBookSnapshot.getMidPrice] at hmid ⊢
  by_cases hcond : 0 < bq.price ∧ 0 < aq.price
  · rw [if_pos hcond]
    exact ⟨rfl, hcond⟩
  · rw [if_neg hcond] at hmid
    exact absurd hmid (lt_irrefl 0)

/-- C4 counterexample: the crossed book with best bid 100 and ask ladder
[(50, 5), (60, 5)] has positive mid-price 75 and strictly increasing ask
prices, yet a buy of 5 fills at VWAP 50 below mid, so the buy impact
(vwap − mid)/mid is negative, refuting the claim as stated (it holds
only for uncrossed books). -/
theorem C4_impact_sign_counterexample :
    0 < OrderBookSnapshot.getMidPrice ⟨"", "", [⟨100, 5⟩], [⟨50, 5⟩, ⟨60, 5⟩]⟩ ∧
    List.Chain' (fun x y : OrderBookLevel => x.price < y.price) [⟨50, 5⟩, ⟨60, 5⟩] ∧
    0 < (simulate ⟨"", "", [⟨100, 5⟩], [⟨50, 5⟩, ⟨60, 5⟩]⟩ "buy" 5).2 ∧
    ((simulate ⟨"", "", [⟨100, 5⟩], [⟨50, 5⟩, ⟨60, 5⟩]⟩ "buy" 5).1 /
        ((simulate ⟨"", "", [⟨100, 5⟩], [⟨50, 5⟩, ⟨60, 5⟩]⟩ "buy" 5).2 : ℚ) -
        OrderBookSnapshot.getMidPrice ⟨"", "", [⟨100, 5⟩], [⟨50, 5⟩, ⟨60, 5⟩]⟩) /
        OrderBookSnapshot.getMidPrice ⟨"", "", [⟨100, 5⟩], [⟨50, 5⟩, ⟨60, 5⟩]⟩ < 0 := by
  refine ⟨by norm_num [OrderBookSnapshot.getMidPrice],
    by norm_num [List.chain'_cons], by decide, ?_⟩
  have h1 : simulate ⟨"", "", [⟨100, 5⟩], [⟨50, 5⟩, ⟨60, 5⟩]⟩ "buy" 5 = (250, 5) := by
    norm_num [simulate, walkLevels]
  rw [h1]
  norm_num [OrderBookSnapshot.getMidPrice]

theorem chain'_head_rel {α : Type} (r : α → α → Prop)
    (htr : ∀ a b c, r a b → r b c → r a c) (a : α) (l : List α)
    (h : List.Chain' r (a :: l)) : ∀ x ∈ l, r a x := by
  induction l generalizing a with
  | nil =>
    intro x hx
    simp at hx
  | cons b t ih =>
    intro x hx
    rw [List.chain'_cons] at h
    rcases List.mem_cons.mp hx with rfl | hmem
    · exact h.1
    · exact htr a b x h.1 (ih b h.2 x hmem)

/-- C4 (amended): for every snapshot with positive mid-price whose book
is not crossed (best bid price ≤ best ask price): if a simulated buy
order walks strictly increasing ask prices and fills a positive
quantity, its impact (vwap − mid)/mid is ≥ 0; symmetrically, a sell
order walking strictly decreasing bid prices with a positive fill has
impact (mid − vwap)/mid ≥ 0. -/
theorem C4_impact_sign_amended (s : OrderBookSnapshot) (bq aq : OrderBookLevel)
    (bs as' : List OrderBookLevel) (q : Int)
    (hb : s.bids = bq :: bs) (ha : s.asks = aq :: as')
    (hmid : 0 < s.getMidPrice) (hcross : bq.price ≤ aq.price) :
    (List.Chain' (fun x y : OrderBookLevel => x.price < y.price) s.asks →
      0 < (simulate s "buy" q).2 →
      0 ≤ ((simulate s "buy" q).1 / ((simulate s "buy" q).2 : ℚ) - s.getMidPrice) /
            s.getMidPrice) ∧
    (List.Chain' (fun x y : OrderBookLevel => y.price < x.price) s.bids →
      0 < (simulate s "sell" q).2 →
      0 ≤ (s.getMidPrice - (simulate s "sell" q).1 / ((simulate s "sell" q).2 : ℚ)) /
            s.getMidPrice) := by
  obtain ⟨hmid_eq, hpb, hpa⟩ := getMidPrice_pos_elim s bq aq bs as' hb ha hmid
  constructor
  · intro hchain hf
    have hfQ : (0 : ℚ) < ((simulate s "buy" q).2 : ℚ) := by exact_mod_cast hf
    have hsim := simulate_eq_consumedLevels s "buy" q
    have hL : consumedLevels s "buy" q = consumedTakes q s.asks := by
      simp [consumedLevels]
    have hlow : ∀ l ∈ s.asks, aq.price ≤ l.price := by
      rw [ha] at hchain ⊢
      intro l hl
      rcases List.mem_cons.mp hl with rfl | hmem
      · exact le_rfl
      · exact le_of_lt (chain'_head_rel (fun x y : OrderBookLevel => x.price < y.price)
          (fun a b c hab hbc => lt_trans hab hbc) aq as' hchain l hmem)
    have hbound : ∀ tp ∈ consumedLevels s "buy" q, 0 ≤ tp.1 ∧ aq.price ≤ tp.2 := by
      intro tp htp
      rw [hL] at htp
      obtain ⟨h1, l, hlmem, hpr, _⟩ := consumedTakes_mem s.asks q tp htp
      exact ⟨by omega, hpr ▸ hlow l hlmem⟩
    have hcost := mul_filled_le_cost (consumedLevels s "buy" q) aq.price hbound
    have hvwap : aq.price ≤ (simulate s "buy" q).1 / ((simulate s "buy" q).2 : ℚ) := by
      rw [le_div_iff₀ hfQ]
      calc aq.price * ((simulate s "buy" q).2 : ℚ)
          = aq.price * ((((consumedLevels s "buy" q).map fun tp => tp.1).sum : Int) : ℚ) := by
            rw [hsim]
        _ ≤ ((consumedLevels s "buy" q).map fun tp => (tp.1 : ℚ) * tp.2).sum := hcost
        _ = (simulate s "buy" q).1 := by rw [hsim]
    have hmid_le : s.getMidPrice ≤ aq.price := by
      rw [hmid_eq]
      linarith
    apply div_nonneg _ (le_of_lt hmid)
    linarith
  · intro hchain hf
    have hfQ : (0 : ℚ) < ((simulate s "sell" q).2 : ℚ) := by exact_mod_cast hf
    have hsim := simulate_eq_consumedLevels s "sell" q
    have hL : consumedLevels s "sell" q = consumedTakes q s.bids := by
      simp [consumedLevels]
    have hhigh : ∀ l ∈ s.bids, l.price ≤ bq.price := by
      rw [hb] at hchain ⊢
      intro l hl
      rcases List.mem_cons.mp hl with rfl | hmem
      · exact le_rfl
      · exact le_of_lt (chain'_head_rel (fun x y : OrderBookLevel => y.price < x.price)
          (fun a b c hab hbc => lt_trans hbc hab) bq bs hchain l hmem)
    have hbound : ∀ tp ∈ consumedLevels s "sell" q, 0 ≤ tp.1 ∧ tp.2 ≤ bq.price := by
      intro tp htp
      rw [hL] at htp
      obtain ⟨h1, l, hlmem, hpr, _⟩ := consumedTakes_mem s.bids q tp htp
      exact ⟨by omega, hpr ▸ hhigh l hlmem⟩
    have hcost := cost_le_mul_filled (consumedLevels s "sell" q) bq.price hbound
    have hvwap : (simulate s "sell" q).1 / ((simulate s "sell" q).2 : ℚ) ≤ bq.price := by
      rw [div_le_iff₀ hfQ]
      calc (simulate s "sell" q).1
          = ((consumedLevels s "sell" q).map fun tp => (tp.1 : ℚ) * tp.2).sum := by
            rw [hsim]
        _ ≤ bq.price * ((((consumedLevels s "sell" q).map fun tp => tp.1).sum : Int) : ℚ) :=
            hcost
        _ = bq.price * ((simulate s "sell" q).2 : ℚ) := by rw [hsim]
    have hmid_ge : bq.price ≤ s.getMidPrice := by
      rw [hmid_eq]
      linarith
    apply div_nonneg _ (le_of_lt hmid)
    linarith

/-- C4 witness: nonnegative buy impact at a concrete uncrossed snapshot
with strictly increasing ask prices. -/
theorem C4_impact_sign_amended_witness :
    0 ≤ ((simulate ⟨"", "", [⟨99, 5⟩], [⟨101, 5⟩, ⟨102, 5⟩]⟩ "buy" 8).1 /
          ((simulate ⟨"", "", [⟨99, 5⟩], [⟨101, 5⟩, ⟨102, 5⟩]⟩ "buy" 8).2 : ℚ) -
          OrderBookSnapshot.getMidPrice ⟨"", "", [⟨99, 5⟩], [⟨101, 5⟩, ⟨102, 5⟩]⟩) /
          OrderBookSnapshot.getMidPrice ⟨"", "", [⟨99, 5⟩], [⟨101, 5⟩, ⟨102, 5⟩]⟩ :=
  (C4_impact_sign_amended ⟨"", "", [⟨99, 5⟩], [⟨101, 5⟩, ⟨102, 5⟩]⟩ ⟨99, 5⟩ ⟨101, 5⟩
    [] [⟨102, 5⟩] 8 rfl rfl (by norm_num [OrderBookSnapshot.getMidPrice]) (by norm_num)).1
    (by norm_num [List.chain'_cons]) (by decide)

/-! ### Lemmas about the per-size emission step -/

theorem sizeResult_order_size (snapshots : List OrderBookSnapshot) (side : String)
    (sz : Int) (r : ImpactResult) (h : sizeResult snapshots side sz = some r) :
    r.order_size = sz := by
  by_cases he : (impactsFor snapshots side sz).isEmpty
  · simp [sizeResult, he] at h
  · simp only [sizeResult, he, Bool.false_eq_true, if_false] at h
    rw [← Option.some.inj h]

theorem sizeResult_isSome (snapshots : List OrderBookSnapshot) (side : String) (sz : Int) :
    (sizeResult snapshots side sz).isSome = !(impactsFor snapshots side sz).isEmpty := by
  by_cases he : (impactsFor snapshots side sz).isEmpty <;> simp [sizeResult, he]

theorem filterMap_map_order_size (g : Int → Option ImpactResult)
    (hg : ∀ sz r, g sz = some r → r.order_size = sz) :
    ∀ l : List Int,
      (l.filterMap g).map (fun r => r.order_size) = l.filter (fun sz => (g sz).isSome) := by
  intro l
  induction l with
  | nil => simp
  | cons a l ih =>
    rw [List.filterMap_cons, List.filter_cons]
    cases hga : g a with
    | none => simp [hga, ih]
    | some r => simp [hga, ih, hg a r hga]

theorem filterMap_filter_eq_toList (g : Int → Option ImpactResult)
    (hg : ∀ sz r, g sz = some r → r.order_size = sz) :
    ∀ l : List Int, l.Pairwise (· < ·) → ∀ sz ∈ l,
      (l.filterMap g).filter (fun r => r.order_size == sz) = (g sz).toList := by
  intro l
  induction l with
  | nil =>
    intro _ sz hsz
    simp at hsz
  | cons a l ih =>
    intro hl sz hsz
    have hpw := List.pairwise_cons.mp hl
    rw [List.filterMap_cons]
    rcases List.mem_cons.mp hsz with rfl | hmem
    · have hrest : (l.filterMap g).filter (fun r => r.order_size == sz) = [] := by
        rw [List.filter_eq_nil_iff]
        intro r hr
        obtain ⟨x, hx, hgx⟩ := List.mem_filterMap.mp hr
        have hrx : r.order_size = x := hg x r hgx
        have hax : sz < x := hpw.1 x hx
        simp only [hrx]
        intro hcon
        have : x = sz := by exact_mod_cast beq_iff_eq.mp hcon
        omega
      cases hga : g sz with
      | none => simpa [hga] using hrest
      | some r =>
        have hra : r.order_size = sz := hg sz r hga
        rw [List.filter_cons]
        simp [hra, hrest, hga]
    · have halt : a < sz := hpw.1 sz hmem
      have ihl := ih hpw.2 sz hmem
      cases hga : g a with
      | none => simpa [hga] using ihl
      | some r =>
        have hra : r.order_size = a := hg a r hga
        rw [List.filter_cons]
        have hfa : (r.order_size == sz) = false := by
          rw [hra]
          exact beq_eq_false_iff_ne.mpr (by omega)
        simpa [hfa] using ihl

/-! ### Claim C7 -/

/-- C7: the emitted ImpactSample sequence is strictly increasing in
order_size; its order sizes are exactly the requested step sequence
(the loop values 10, 20, ..., up to max_shares) minus the sizes whose
per-size aggregate was empty; and the requested step sequence contains
exactly the multiples of 10 between 10 and max_shares. -/
theorem C7_curve_sizes (snapshots : List OrderBookSnapshot) (side : String)
    (max_shares : Int) :
    ((calculateTemporaryImpact snapshots side max_shares).map
      fun r => r.order_size).Pairwise (· < ·) ∧
    (calculateTemporaryImpact snapshots side max_shares).map (fun r => r.order_size) =
      (sizeLoop 10 max_shares).filter
        (fun sz => !(impactsFor snapshots side sz).isEmpty) ∧
    (∀ sz : Int, sz ∈ sizeLoop 10 max_shares ↔
      10 ≤ sz ∧ sz ≤ max_shares ∧ (sz - 10) % 10 = 0) := by
  have hmap : (calculateTemporaryImpact snapshots side max_shares).map
      (fun r => r.order_size) =
      (sizeLoop 10 max_shares).filter (fun sz => (sizeResult snapshots side sz).isSome) := by
    rw [calculateTemporaryImpact]
    exact filterMap_map_order_size (sizeResult snapshots side)
      (sizeResult_order_size snapshots side) (sizeLoop 10 max_shares)
  have hfun : (fun sz => (sizeResult snapshots side sz).isSome) =
      (fun sz => !(impactsFor snapshots side sz).isEmpty) := by
    funext sz
    exact sizeResult_isSome snapshots side sz
  refine ⟨?_, ?_, fun sz => sizeLoop_mem 10 max_shares sz⟩
  · rw [hmap]
    exact (sizeLoop_pairwise 10 max_shares).filter _
  · rw [hmap, hfun]

/-! ### Claim C3 -/

/-- C3: for any size in the sweep, the per-size accumulator holds exactly
the impacts of the snapshots with positive mid-price and positive
simulated fill, in snapshot order; the curve holds exactly one sample
for that size — with avg_impact the arithmetic mean of the accumulator
and impact_bps = avg_impact * 10000 — when the accumulator is non-empty
and no sample at all when it is empty; and an empty snapshot collection
yields an empty curve (no error is possible, the builder is total). -/
theorem C3_per_size_aggregation (snapshots : List OrderBookSnapshot) (side : String)
    (max_shares sz : Int) (hsz : sz ∈ sizeLoop 10 max_shares) :
    impactsFor snapshots side sz =
      (snapshots.filter fun s =>
        decide (0 < s.getMidPrice) && decide (0 < (simulate s side sz).2)).map
        (fun s => if side == "buy"
          then ((simulate s side sz).1 / ((simulate s side sz).2 : ℚ) - s.getMidPrice) /
                s.getMidPrice
          else (s.getMidPrice - (simulate s side sz).1 / ((simulate s side sz).2 : ℚ)) /
                s.getMidPrice) ∧
    ((calculateTemporaryImpact snapshots side max_shares).filter
        (fun r => r.order_size == sz) =
      if (impactsFor snapshots side sz).isEmpty then []
      else [⟨sz,
        (impactsFor snapshots side sz).sum / ((impactsFor snapshots side sz).length : ℚ),
        (impactsFor snapshots side sz).sum / ((impactsFor snapshots side sz).length : ℚ) *
          10000⟩]) ∧
    calculateTemporaryImpact [] side max_shares = [] := by
  refine ⟨?_, ?_, ?_⟩
  · induction snapshots with
    | nil => simp [impactsFor]
    | cons s rest ih =>
      rw [impactsFor_cons, List.filter_cons]
      by_cases hm : 0 < s.getMidPrice
      · by_cases hf : 0 < (simulate s side sz).2
        · rw [snapshotImpact_some s side sz hm hf]
          simp [hm, hf, ih]
        · rw [snapshotImpact_none_of_no_fill s side sz (by omega)]
          simp [hm, hf, ih]
      · rw [snapshotImpact_none_of_mid s side sz (le_of_not_lt hm)]
        simp [hm, ih]
  · rw [calculateTemporaryImpact,
      filterMap_filter_eq_toList (sizeResult snapshots side)
        (sizeResult_order_size snapshots side) (sizeLoop 10 max_shares)
        (sizeLoop_pairwise 10 max_shares) sz hsz]
    by_cases he : (impactsFor snapshots side sz).isEmpty <;> simp [sizeResult, he]
  · rw [calculateTemporaryImpact, List.filterMap_eq_nil_iff]
    intro a _
    simp [sizeResult, impactsFor]

/-- C3 witness: the empty-collection conjunct of the theorem, with the
size-membership hypothesis discharged at size 10 and max_shares 10. -/
theorem C3_per_size_aggregation_witness :
    calculateTemporaryImpact [] "buy" 10 = [] :=
  (C3_per_size_aggregation [] "buy" 10 10
    ((sizeLoop_mem 10 10 10).mpr ⟨le_rfl, le_rfl, by norm_num⟩)).2.2
